import Mathlib

/-!
Shallow embedding of the feedme repository: the SQLite-backed recipe store
(controllers/ingredient_controller.rs, controllers/recipe_controller.rs), the
terminal entry wizard (tui/app.rs, tui/ingredient_states.rs) and the importer
binary (bin/recipe_importer.rs), together with theorems about them.

Database tables are modelled as lists of row structures; i64 ids are Int
(ids only grow by 1 from small starting points, so overflow is immaterial).
The created_at timestamp columns are environment-supplied and no claim
mentions them, so they are omitted from the row models.
-/

/-- Modelled from the spec: a row of the ingredients table. The schema comes
from the migrations directory of the repository, which is not part of the
sources given; section 6 of the spec describes it as
ingredients(id, name unique, created_at) with auto-increment integer ids. -/
structure IngredientRow where
  id : Int
  name : String
deriving DecidableEq, Repr

/-- Modelled from the spec: a row of the recipes table,
recipes(id, name, instructions nullable, created_at). -/
structure RecipeRow where
  id : Int
  name : String
  instructions : Option String
deriving DecidableEq, Repr

/-- Modelled from the spec: a row of the recipe_ingredients link table,
recipe_ingredients(id, recipe_id, ingredient_id, quantity_unit,
notes nullable, created_at), link rows ordered by their own id. -/
structure LinkRow where
  id : Int
  recipe_id : Int
  ingredient_id : Int
  quantity_unit : String
  notes : Option String
deriving DecidableEq, Repr

/-- Modelled from the spec: the whole SQLite database state. The next fields
model the auto-increment id counters (SQLite rowid allocation). -/
structure DB where
  ingredients : List IngredientRow
  recipes : List RecipeRow
  links : List LinkRow
  next_ingredient_id : Int
  next_recipe_id : Int
  next_link_id : Int
deriving DecidableEq, Repr

/-- Errors surfaced by the sqlx layer that this code can hit: a UNIQUE
constraint violation on INSERT, or any other storage failure. -/
inductive SqlxError
  | uniqueViolation
  | storageFailure
deriving DecidableEq, Repr

/-- FeedMeError from src/error.rs: Database wraps an underlying sqlx error,
the other two variants carry the offending id. -/
inductive FeedMeError
  | Database (e : SqlxError)
  | RecipeNotFound (id : Int)
  | IngredientNotFound (id : Int)
deriving DecidableEq, Repr

/-- RecipeIngredient from src/models/api/recipe.rs. -/
structure RecipeIngredient where
  ingredient_id : Int
  ingredient_name : String
  quantity_unit : String
  notes : Option String
deriving DecidableEq, Repr

/-- Recipe from src/models/api/recipe.rs (created_at omitted, see header). -/
structure Recipe where
  id : Int
  name : String
  instructions : Option String
  ingredients : List RecipeIngredient
deriving DecidableEq, Repr

/-- ShoppingListItem from src/models/api/shopping_list.rs. -/
structure ShoppingListItem where
  ingredient_name : String
  combined_quantity : String
deriving DecidableEq, Repr

/-- create_ingredient from src/controllers/ingredient_controller.rs: a single
INSERT INTO ingredients (name) VALUES (?), which hits the UNIQUE constraint
on name exactly when a row with that name already exists, and otherwise
returns last_insert_rowid. -/
def create_ingredient (db : DB) (name : String) : Except FeedMeError Int × DB :=
  if db.ingredients.any (fun r => r.name == name) then
    (Except.error (FeedMeError.Database SqlxError.uniqueViolation), db)
  else
    (Except.ok db.next_ingredient_id,
     { db with
         ingredients := db.ingredients ++ [{ id := db.next_ingredient_id, name := name }],
         next_ingredient_id := db.next_ingredient_id + 1 })

/-- Ordering used by ORDER BY ri.id in the get_recipe query. -/
def linkLE (a b : LinkRow) : Prop := a.id ≤ b.id

instance : DecidableRel linkLE := fun a b => inferInstanceAs (Decidable (a.id ≤ b.id))

/-- get_recipe from src/controllers/recipe_controller.rs: fetch_optional on
the recipes row; then the JOIN of recipe_ingredients with ingredients,
filtered by recipe_id and ordered by ri.id. The inner JOIN drops link rows
whose ingredient_id has no catalog row; ingredients.id is the primary key,
so find? picks the unique matching catalog row on a well-formed database. -/
def get_recipe (db : DB) (recipe_id : Int) : Except FeedMeError Recipe × DB :=
  match db.recipes.find? (fun r => r.id == recipe_id) with
  | none => (Except.error (FeedMeError.RecipeNotFound recipe_id), db)
  | some r =>
    (Except.ok
      { id := r.id, name := r.name, instructions := r.instructions,
        ingredients :=
          (List.insertionSort linkLE
            (db.links.filter (fun l => l.recipe_id == recipe_id))).filterMap (fun l =>
              (db.ingredients.find? (fun i => i.id == l.ingredient_id)).map (fun i =>
                ({ ingredient_id := l.ingredient_id, ingredient_name := i.name,
                   quantity_unit := l.quantity_unit, notes := l.notes } :
                  RecipeIngredient))) }, db)

/-- Link rows produced by the insertion loop of create_recipe when every
INSERT succeeds: one row per ingredient, in input order, with consecutive
auto-increment ids starting at the given counter. -/
def mkLinks (recipe_id : Int) : Int → List RecipeIngredient → List LinkRow
  | _, [] => []
  | next, ri :: rest =>
    ({ id := next, recipe_id := recipe_id, ingredient_id := ri.ingredient_id,
       quantity_unit := ri.quantity_unit, notes := ri.notes } : LinkRow) :: mkLinks recipe_id (next + 1) rest

/-- The link-insertion loop of create_recipe inside the transaction. Each
sqlx execute can fail; the oracle fail gives the outcome of step i + 1 for
the i-th link INSERT (step 0 is the recipe INSERT, handled by the caller).
Returns none on the first failing INSERT, otherwise the inserted rows and
the advanced link id counter. -/
def insertLinks (fail : Nat → Bool) (recipe_id : Int) :
    Nat → Int → List RecipeIngredient → Option (List LinkRow × Int)
  | _, next, [] => some ([], next)
  | i, next, ri :: rest =>
    if fail (i + 1) then none
    else
      match insertLinks fail recipe_id (i + 1) (next + 1) rest with
      | none => none
      | some (ls, fin) =>
        some (({ id := next, recipe_id := recipe_id, ingredient_id := ri.ingredient_id,
                 quantity_unit := ri.quantity_unit, notes := ri.notes } : LinkRow) :: ls, fin)

/-- create_recipe from src/controllers/recipe_controller.rs, run inside one
transaction. Each fallible sqlx statement is a step of the oracle fail:
step 0 the recipe INSERT, step i + 1 the i-th link INSERT, and step
(length + 1) the COMMIT. Any failing step makes the function return the
error with the database unchanged (the dropped transaction rolls back);
only a fully successful run commits the new rows. -/
def create_recipe_tx (fail : Nat → Bool) (db : DB) (recipe : Recipe) :
    Except FeedMeError Int × DB :=
  if fail 0 then (Except.error (FeedMeError.Database SqlxError.storageFailure), db)
  else
    match insertLinks fail db.next_recipe_id 0 db.next_link_id recipe.ingredients with
    | none => (Except.error (FeedMeError.Database SqlxError.storageFailure), db)
    | some (ls, next_link) =>
      if fail (recipe.ingredients.length + 1) then
        (Except.error (FeedMeError.Database SqlxError.storageFailure), db)
      else
        (Except.ok db.next_recipe_id,
         { db with
             recipes := db.recipes ++
               [{ id := db.next_recipe_id, name := recipe.name,
                  instructions := recipe.instructions }],
             links := db.links ++ ls,
             next_recipe_id := db.next_recipe_id + 1,
             next_link_id := next_link })

/-- create_recipe on the path where no storage operation fails. -/
def create_recipe (db : DB) (recipe : Recipe) : Except FeedMeError Int × DB :=
  create_recipe_tx (fun _ => false) db recipe

/-- Row returned by the shopping-list SELECT: ingredient name and
quantity_unit, carrying the link id that the ORDER BY clause uses. -/
structure ShoppingRow where
  ingredient_name : String
  quantity_unit : String
  link_id : Int
deriving DecidableEq, Repr

/-- Lexicographic comparison of character lists: the order Rust String cmp
and the SQLite BINARY collation use (byte order on UTF-8 agrees with
code-point order), written structurally so it evaluates. -/
def strLeb : List Char → List Char → Bool
  | [], _ => true
  | _ :: _, [] => false
  | a :: as, b :: bs =>
    if a < b then true
    else if a = b then strLeb as bs
    else false

/-- String order used by the two ORDER BY clauses and the final sort. -/
def strLE (a b : String) : Prop := strLeb a.data b.data = true

instance : DecidableRel strLE := fun a b =>
  inferInstanceAs (Decidable (strLeb a.data b.data = true))

/-- Ordering of ORDER BY i.name, ri.id in the shopping-list query. -/
def rowLE (a b : ShoppingRow) : Prop :=
  if a.ingredient_name = b.ingredient_name then a.link_id ≤ b.link_id
  else strLE a.ingredient_name b.ingredient_name

instance : DecidableRel rowLE := fun a b =>
  inferInstanceAs (Decidable (if a.ingredient_name = b.ingredient_name
    then a.link_id ≤ b.link_id else strLE a.ingredient_name b.ingredient_name))

/-- The row the JOIN of the shopping-list query yields for one link row:
its ingredient name from the catalog (none when the inner JOIN finds no
catalog row), its quantity_unit, and its link id for the ORDER BY. -/
def rowOf (db : DB) (l : LinkRow) : Option ShoppingRow :=
  (db.ingredients.find? (fun i => i.id == l.ingredient_id)).map (fun i =>
    ({ ingredient_name := i.name, quantity_unit := l.quantity_unit,
       link_id := l.id } : ShoppingRow))

/-- The row set fetched by generate_shopping_list: the JOIN of
recipe_ingredients with ingredients restricted to the requested recipe ids,
ordered by ingredient name then link id. -/
def shoppingRows (db : DB) (recipe_ids : List Int) : List ShoppingRow :=
  List.insertionSort rowLE
    (db.links.filterMap (fun l =>
      if recipe_ids.contains l.recipe_id then rowOf db l else none))

/-- One step of the grouping loop of generate_shopping_list:
ingredient_map.entry(name).or_insert_with(Vec::new).push(quantity_unit). -/
def pushQuantity (acc : List (String × List String)) (name qty : String) :
    List (String × List String) :=
  if acc.any (fun p => p.1 == name) then
    acc.map (fun p => if p.1 == name then (p.1, p.2 ++ [qty]) else p)
  else acc ++ [(name, [qty])]

/-- The grouping loop of generate_shopping_list over the fetched rows. The
Rust HashMap iterates in an unspecified order; it is modelled here as an
association list in first-insertion order, which is immaterial for the
final result because the keys are distinct and the list is sorted by key
afterwards. -/
def groupRows (rows : List ShoppingRow) : List (String × List String) :=
  rows.foldl (fun acc r => pushQuantity acc r.ingredient_name r.quantity_unit) []

/-- Ordering of shopping_list.sort_by comparing ingredient names. -/
def itemLE (a b : ShoppingListItem) : Prop := strLE a.ingredient_name b.ingredient_name

instance : DecidableRel itemLE := fun a b =>
  inferInstanceAs (Decidable (strLE a.ingredient_name b.ingredient_name))

/-- generate_shopping_list from src/controllers/recipe_controller.rs: early
return on an empty id list; otherwise fetch the rows, group quantities by
ingredient name, join each group with the separator, sort by name. -/
def generate_shopping_list (db : DB) (recipe_ids : List Int) : List ShoppingListItem :=
  if recipe_ids.isEmpty then []
  else
    List.insertionSort itemLE
      ((groupRows (shoppingRows db recipe_ids)).map (fun p =>
        ({ ingredient_name := p.1,
           combined_quantity := String.intercalate " + " p.2 } : ShoppingListItem)))

/-- Instrumented form of generate_shopping_list mirroring its control flow:
the second component is the database after the call (the function only runs
SELECT statements) and the third counts the fetch_all executions, 0 on the
early-return path and 1 otherwise. -/
def generate_shopping_list_st (db : DB) (recipe_ids : List Int) :
    List ShoppingListItem × DB × Nat :=
  if recipe_ids.isEmpty then ([], db, 0)
  else (generate_shopping_list db recipe_ids, db, 1)

/-- Key events fed to the wizard, from crossterm KeyCode as used by the
handlers: printable character, backspace, enter, escape, anything else. -/
inductive KeyCode
  | char (c : Char)
  | backspace
  | enter
  | esc
  | other
deriving DecidableEq, Repr

/-- IngredientStatus from src/tui/app.rs. -/
inductive IngredientStatus
  | existing (id : Int)
  | new
deriving DecidableEq, Repr

/-- IngredientInfo from src/tui/app.rs. -/
structure IngredientInfo where
  status : IngredientStatus
  quantity_unit : String
  notes : String
deriving DecidableEq, Repr

/-- RecipeContext from src/tui/app.rs. The IndexMap of ingredients is an
insertion-ordered association list; possible_ingredients is the HashMap
snapshot of catalog names to ids, only ever read through get. -/
structure RecipeContext where
  name : String
  ingredients : List (String × IngredientInfo)
  possible_ingredients : List (String × Int)
  instructions : List String
  finished : Bool
deriving DecidableEq, Repr

/-- IndexMap::contains_key. -/
def indexMapContains (m : List (String × IngredientInfo)) (k : String) : Bool :=
  m.any (fun p => p.1 == k)

/-- IndexMap::insert: an existing key keeps its position and gets the new
value; a new key is appended at the end. -/
def indexMapInsert (m : List (String × IngredientInfo)) (k : String)
    (v : IngredientInfo) : List (String × IngredientInfo) :=
  if indexMapContains m k then
    m.map (fun p => if p.1 == k then (k, v) else p)
  else m ++ [(k, v)]

/-- HashMap::get on the known-ingredients snapshot. -/
def hashMapGet (m : List (String × Int)) (k : String) : Option Int :=
  (m.find? (fun p => p.1 == k)).map (fun p => p.2)

/-- Rust String::pop: remove the last character, no-op on the empty string. -/
def stringPop (s : String) : String := s.dropRight 1

/-- The six wizard states of src/tui/ingredient_states.rs, as a sum type;
each constructor carries exactly the fields of the corresponding struct. -/
inductive RecipeState
  | recipeName (current_input : String)
  | ingredientList (current_input : String) (error_message : Option String)
  | confirmIngredient (ingredient : String)
  | ingredientQuantity (ingredient : String) (current_input : String)
      (status : IngredientStatus)
  | ingredientNotes (ingredient : String) (current_input : String)
      (status : IngredientStatus) (quantity_unit : String)
  | instructions (current_input : String)
deriving DecidableEq, Repr

/-- The single quote character U+0027, which the duplicate-ingredient
message wraps around the offending name. -/
def squote : String := "\x27"

/-- The duplicate-ingredient error message of IngredientList::handle_key. -/
def dupMessage (name : String) : String := squote ++ name ++ squote ++ " already added"

/-- The handle_key methods of the six states, dispatched on the state. A
Rust return of None keeps the (mutated) receiver as the state; Some(next)
replaces it. The context is the Draft being mutated. -/
def RecipeState.handle_key :
    RecipeState → KeyCode → RecipeContext → RecipeState × RecipeContext
  | .recipeName input, .char c, ctx => (.recipeName (input.push c), ctx)
  | .recipeName input, .backspace, ctx => (.recipeName (stringPop input), ctx)
  | .recipeName input, .enter, ctx =>
      (.ingredientList "" none, { ctx with name := input })
  | .recipeName input, _, ctx => (.recipeName input, ctx)
  | .ingredientList input _, .char c, ctx =>
      (.ingredientList (input.push c) none, ctx)
  | .ingredientList input _, .backspace, ctx =>
      (.ingredientList (stringPop input) none, ctx)
  | .ingredientList input _, .enter, ctx =>
      if input.isEmpty then (.instructions "", ctx)
      else if indexMapContains ctx.ingredients input then
        (.ingredientList "" (some (dupMessage input)), ctx)
      else
        match hashMapGet ctx.possible_ingredients input with
        | some id => (.ingredientQuantity input "" (.existing id), ctx)
        | none => (.confirmIngredient input, ctx)
  | .ingredientList input err, _, ctx => (.ingredientList input err, ctx)
  | .confirmIngredient name, .char c, ctx =>
      if c == 'y' || c == 'Y' then (.ingredientQuantity name "" .new, ctx)
      else if c == 'n' || c == 'N' then (.ingredientList "" none, ctx)
      else (.confirmIngredient name, ctx)
  | .confirmIngredient name, _, ctx => (.confirmIngredient name, ctx)
  | .ingredientQuantity name input st, .char c, ctx =>
      (.ingredientQuantity name (input.push c) st, ctx)
  | .ingredientQuantity name input st, .backspace, ctx =>
      (.ingredientQuantity name (stringPop input) st, ctx)
  | .ingredientQuantity name input st, .enter, ctx =>
      (.ingredientNotes name "" st input, ctx)
  | .ingredientQuantity name input st, _, ctx =>
      (.ingredientQuantity name input st, ctx)
  | .ingredientNotes name input st qty, .char c, ctx =>
      (.ingredientNotes name (input.push c) st qty, ctx)
  | .ingredientNotes name input st qty, .backspace, ctx =>
      (.ingredientNotes name (stringPop input) st qty, ctx)
  | .ingredientNotes name input st qty, .enter, ctx =>
      let info : IngredientInfo := { status := st, quantity_unit := qty, notes := input }
      (.ingredientList "" none,
       { ctx with ingredients := indexMapInsert ctx.ingredients name info })
  | .ingredientNotes name input st qty, _, ctx =>
      (.ingredientNotes name input st qty, ctx)
  | .instructions input, .char c, ctx => (.instructions (input.push c), ctx)
  | .instructions input, .backspace, ctx => (.instructions (stringPop input), ctx)
  | .instructions input, .enter, ctx =>
      if input.isEmpty then (.instructions input, { ctx with finished := true })
      else (.instructions "", { ctx with instructions := ctx.instructions ++ [input] })
  | .instructions input, _, ctx => (.instructions input, ctx)

/-- AppAction from src/tui/app.rs. -/
inductive AppAction
  | cont
  | saveAndExit
  | cancelAndExit
deriving DecidableEq, Repr

/-- RecipeApp from src/tui/app.rs: the active state plus the Draft. -/
structure RecipeApp where
  state : RecipeState
  context : RecipeContext
deriving DecidableEq, Repr

/-- RecipeApp::new seeded with the known-ingredients snapshot. -/
def RecipeApp.new (possible : List (String × Int)) : RecipeApp :=
  { state := .recipeName "",
    context := { name := "", ingredients := [], possible_ingredients := possible,
                 instructions := [], finished := false } }

/-- RecipeApp::handle_key: the global escape check, then per-state dispatch,
then the finished check deciding the action. -/
def RecipeApp.handle_key (app : RecipeApp) (key : KeyCode) : AppAction × RecipeApp :=
  if key == KeyCode.esc then (.cancelAndExit, app)
  else
    let sc := app.state.handle_key key app.context
    if sc.2.finished then (.saveAndExit, { state := sc.1, context := sc.2 })
    else (.cont, { state := sc.1, context := sc.2 })

/-- Feed a list of keys through RecipeApp::handle_key, as the main loop of
the importer does until it observes a terminal action. -/
def runKeys : RecipeApp → List KeyCode → RecipeApp
  | app, [] => app
  | app, k :: ks => runKeys (app.handle_key k).2 ks

/-- The id-resolution loop of the importer (bin/recipe_importer.rs, the for
loop over context.ingredients): a New entry is created through
create_ingredient right here, on the pool, outside any recipe transaction;
an Existing entry just supplies its id. The question-mark operator makes
the first failing creation abort the loop, keeping earlier creations. -/
def resolve_ingredients :
    DB → List (String × IngredientInfo) → Except FeedMeError (List RecipeIngredient) × DB
  | db, [] => (Except.ok [], db)
  | db, (name, info) :: rest =>
    let step : Except FeedMeError Int × DB :=
      match info.status with
      | .new => create_ingredient db name
      | .existing id => (Except.ok id, db)
    match step with
    | (Except.error e, db1) => (Except.error e, db1)
    | (Except.ok iid, db1) =>
      match resolve_ingredients db1 rest with
      | (Except.error e, db2) => (Except.error e, db2)
      | (Except.ok ris, db2) =>
        (Except.ok
          (({ ingredient_id := iid, ingredient_name := name,
              quantity_unit := info.quantity_unit,
              notes := if info.notes.isEmpty then none else some info.notes } :
              RecipeIngredient) :: ris), db2)

/-- The Recipe value the importer builds from the finished draft (the let
recipe binding of bin/recipe_importer.rs): id and created_at are ignored by
create_recipe, instructions is the newline join of the entered steps or
absent when no step was entered. -/
def builtRecipe (ctx : RecipeContext) (ris : List RecipeIngredient) : Recipe :=
  { id := 0, name := ctx.name,
    instructions :=
      if ctx.instructions.isEmpty then none
      else some (String.intercalate "\n" ctx.instructions),
    ingredients := ris }

/-- The save path of the importer main (bin/recipe_importer.rs): skip when
the entered name is empty, otherwise resolve the ingredient ids (creating
New ones first), build the Recipe with the joined instructions, and call
create_recipe; the fail oracle is passed to the create_recipe transaction.
Returns the created recipe id, or none when nothing was saved. -/
def importer_save (fail : Nat → Bool) (db : DB) (ctx : RecipeContext) :
    Except FeedMeError (Option Int) × DB :=
  if ctx.name.isEmpty then (Except.ok none, db)
  else
    match resolve_ingredients db ctx.ingredients with
    | (Except.error e, db1) => (Except.error e, db1)
    | (Except.ok ris, db1) =>
      match create_recipe_tx fail db1 (builtRecipe ctx ris) with
      | (Except.error e, db2) => (Except.error e, db2)
      | (Except.ok rid, db2) => (Except.ok (some rid), db2)

/-! Helper lemmas about the transaction model. -/

/-- Characterization of the link-insertion loop: it succeeds with the rows
of mkLinks exactly when no link INSERT step fails. -/
theorem insertLinks_eq (fail : Nat → Bool) (recipe_id : Int) :
    ∀ (ris : List RecipeIngredient) (i : Nat) (next : Int),
      insertLinks fail recipe_id i next ris
        = if ∀ j < ris.length, fail (i + 1 + j) = false
          then some (mkLinks recipe_id next ris, next + ris.length)
          else none
  | [], i, next => by simp [insertLinks, mkLinks]
  | ri :: rest, i, next => by
      simp only [insertLinks]
      by_cases hf : fail (i + 1) = true
      · rw [if_pos hf, if_neg]
        intro hall
        have := hall 0 (by simp)
        simp [hf] at this
      · rw [if_neg hf, insertLinks_eq fail recipe_id rest (i + 1) (next + 1)]
        by_cases hall : ∀ j < rest.length, fail (i + 1 + 1 + j) = false
        · rw [if_pos hall, if_pos]
          · simp only [mkLinks, List.length_cons]
            push_cast
            ring_nf
          · intro j hj
            cases j with
            | zero => simpa using hf
            | succ j' =>
              have : i + 1 + (j' + 1) = i + 1 + 1 + j' := by ring
              rw [this]
              exact hall j' (by simpa [Nat.succ_lt_succ_iff] using hj)
        · rw [if_neg hall, if_neg]
          intro hall2
          refine hall (fun j hj => ?_)
          have : i + 1 + 1 + j = i + 1 + (j + 1) := by ring
          rw [this]
          exact hall2 (j + 1) (by simpa [Nat.succ_lt_succ_iff] using hj)

/-- Database state produced by a fully successful create_recipe run. -/
def commitDB (db : DB) (recipe : Recipe) : DB :=
  { db with
      recipes := db.recipes ++
        [{ id := db.next_recipe_id, name := recipe.name,
           instructions := recipe.instructions }],
      links := db.links ++ mkLinks db.next_recipe_id db.next_link_id recipe.ingredients,
      next_recipe_id := db.next_recipe_id + 1,
      next_link_id := db.next_link_id + recipe.ingredients.length }

/-- Characterization of the create_recipe transaction: it commits exactly
when none of its steps (recipe INSERT, link INSERTs, COMMIT) fails, and
any failing step leaves the database untouched. -/
theorem create_recipe_tx_eq (fail : Nat → Bool) (db : DB) (recipe : Recipe) :
    create_recipe_tx fail db recipe
      = if ∀ j < recipe.ingredients.length + 2, fail j = false
        then (Except.ok db.next_recipe_id, commitDB db recipe)
        else (Except.error (FeedMeError.Database SqlxError.storageFailure), db) := by
  unfold create_recipe_tx
  rw [insertLinks_eq]
  by_cases h0 : fail 0 = true
  · rw [if_pos h0, if_neg]
    intro hall
    have := hall 0 (by omega)
    simp [h0] at this
  · rw [if_neg h0]
    by_cases hmid : ∀ j < recipe.ingredients.length, fail (0 + 1 + j) = false
    · rw [if_pos hmid]
      simp only []
      by_cases hlast : fail (recipe.ingredients.length + 1) = true
      · rw [if_pos hlast, if_neg]
        intro hall
        have := hall (recipe.ingredients.length + 1) (by omega)
        simp [hlast] at this
      · rw [if_neg hlast, if_pos]
        · rfl
        · intro j hj
          rcases Nat.lt_or_ge j 1 with h1 | h1
          · interval_cases j
            simpa using h0
          · rcases Nat.lt_or_ge j (recipe.ingredients.length + 1) with h2 | h2
            · have := hmid (j - 1) (by omega)
              have hz : 0 + 1 + (j - 1) = j := by omega
              rwa [hz] at this
            · have hz : j = recipe.ingredients.length + 1 := by omega
              rw [hz]
              simpa using hlast
    · rw [if_neg hmid, if_neg]
      intro hall
      refine hmid (fun j hj => ?_)
      exact hall (0 + 1 + j) (by omega)

/-- The happy-path create_recipe commits and returns the fresh recipe id. -/
theorem create_recipe_happy (db : DB) (recipe : Recipe) :
    create_recipe db recipe = (Except.ok db.next_recipe_id, commitDB db recipe) := by
  unfold create_recipe
  rw [create_recipe_tx_eq, if_pos]
  intro j hj
  rfl

/-- A create_recipe transaction that returns an error leaves the database
exactly as it was. -/
theorem create_recipe_tx_error {fail : Nat → Bool} {db db2 : DB} {recipe : Recipe}
    {e : FeedMeError} (h : create_recipe_tx fail db recipe = (Except.error e, db2)) :
    db2 = db := by
  rw [create_recipe_tx_eq] at h
  by_cases hall : ∀ j < recipe.ingredients.length + 2, fail j = false
  · rw [if_pos hall] at h
    exact absurd (congrArg Prod.fst h) (by simp)
  · rw [if_neg hall] at h
    exact (congrArg Prod.snd h).symm

/-- A successful create_recipe transaction returns the fresh id and the
committed database, and no step of the transaction failed. -/
theorem create_recipe_tx_success {fail : Nat → Bool} {db db2 : DB} {recipe : Recipe}
    {rid : Int} (h : create_recipe_tx fail db recipe = (Except.ok rid, db2)) :
    rid = db.next_recipe_id ∧ db2 = commitDB db recipe ∧
      ∀ j < recipe.ingredients.length + 2, fail j = false := by
  rw [create_recipe_tx_eq] at h
  by_cases hall : ∀ j < recipe.ingredients.length + 2, fail j = false
  · rw [if_pos hall] at h
    exact ⟨(Except.ok.inj (congrArg Prod.fst h)).symm, (congrArg Prod.snd h).symm, hall⟩
  · rw [if_neg hall] at h
    exact absurd (congrArg Prod.fst h) (by simp)

/-- C2: create_recipe executes as one atomic transaction: the recipe row
and every link row are inserted inside it, commit happens only when every
step succeeded, any failure aborts everything leaving the database
unchanged, and an empty ingredient list commits a recipe with zero links. -/
theorem c2_create_recipe_atomic :
    (∀ (fail : Nat → Bool) (db : DB) (recipe : Recipe),
      (∃ e, create_recipe_tx fail db recipe = (Except.error e, db)) ∨
        create_recipe_tx fail db recipe
          = (Except.ok db.next_recipe_id, commitDB db recipe)) ∧
    (∀ (fail : Nat → Bool) (db : DB) (recipe : Recipe) (rid : Int) (db2 : DB),
      create_recipe_tx fail db recipe = (Except.ok rid, db2) →
      ∀ j < recipe.ingredients.length + 2, fail j = false) ∧
    (∀ (db : DB) (recipe : Recipe), recipe.ingredients = [] →
      create_recipe db recipe
        = (Except.ok db.next_recipe_id,
           { db with
               recipes := db.recipes ++
                 [{ id := db.next_recipe_id, name := recipe.name,
                    instructions := recipe.instructions }],
               next_recipe_id := db.next_recipe_id + 1 })) := by
  refine ⟨?_, ?_, ?_⟩
  · intro fail db recipe
    rw [create_recipe_tx_eq]
    by_cases hall : ∀ j < recipe.ingredients.length + 2, fail j = false
    · exact Or.inr (by rw [if_pos hall])
    · exact Or.inl ⟨_, by rw [if_neg hall]⟩
  · intro fail db recipe rid db2 h
    exact (create_recipe_tx_success h).2.2
  · intro db recipe h
    rw [create_recipe_happy]
    simp [commitDB, h, mkLinks]

def c2wDb : DB :=
  { ingredients := [], recipes := [], links := [],
    next_ingredient_id := 1, next_recipe_id := 1, next_link_id := 1 }

def c2wRecipe : Recipe := { id := 0, name := "t", instructions := none, ingredients := [] }

/-- Witness for c2_create_recipe_atomic at a concrete empty-ingredient
recipe. -/
theorem c2_create_recipe_atomic_witness :
    create_recipe c2wDb c2wRecipe
      = (Except.ok 1,
         { ingredients := [], recipes := [{ id := 1, name := "t", instructions := none }],
           links := [], next_ingredient_id := 1, next_recipe_id := 2, next_link_id := 1 }) := by
  rw [c2_create_recipe_atomic.2.2 c2wDb c2wRecipe rfl]
  rfl

/-- C9: create_ingredient returns the fresh row id on success and fails
with the surfaced unique-name violation (the Conflict of the error
taxonomy, FeedMeError.Database wrapping the constraint violation) exactly
when an ingredient with that name already exists. -/
theorem c9_create_ingredient_conflict (db : DB) (name : String) :
    ((∃ r ∈ db.ingredients, r.name = name) →
      create_ingredient db name
        = (Except.error (FeedMeError.Database SqlxError.uniqueViolation), db)) ∧
    ((∀ r ∈ db.ingredients, r.name ≠ name) →
      create_ingredient db name
        = (Except.ok db.next_ingredient_id,
           { db with
               ingredients := db.ingredients ++
                 [{ id := db.next_ingredient_id, name := name }],
               next_ingredient_id := db.next_ingredient_id + 1 })) := by
  constructor
  · rintro ⟨r, hr, he⟩
    have hc : db.ingredients.any (fun q => q.name == name) = true := by
      rw [List.any_eq_true]
      exact ⟨r, hr, by simp [he]⟩
    unfold create_ingredient
    rw [if_pos hc]
  · intro h
    have hc : ¬ db.ingredients.any (fun q => q.name == name) = true := by
      rw [List.any_eq_true]
      rintro ⟨r, hr, he⟩
      exact h r hr (by simpa using he)
    unfold create_ingredient
    rw [if_neg hc]

def c9wDb : DB :=
  { ingredients := [{ id := 1, name := "flour" }], recipes := [], links := [],
    next_ingredient_id := 2, next_recipe_id := 1, next_link_id := 1 }

/-- Witness for c9_create_ingredient_conflict: duplicate "flour" is a
surfaced unique violation; fresh "milk" gets the next id. -/
theorem c9_create_ingredient_conflict_witness :
    create_ingredient c9wDb "flour"
      = (Except.error (FeedMeError.Database SqlxError.uniqueViolation), c9wDb) ∧
    (create_ingredient c9wDb "milk").1 = Except.ok 2 := by
  constructor
  · exact (c9_create_ingredient_conflict c9wDb "flour").1
      ⟨{ id := 1, name := "flour" }, by simp [c9wDb], rfl⟩
  · rw [(c9_create_ingredient_conflict c9wDb "milk").2 (by decide)]
    rfl

/-- C7: in the IngredientList state, submitting a non-empty buffer whose
text is already a key of the Draft ingredients leaves the whole Draft
unchanged, sets the duplicate-name error message, clears the buffer and
stays in IngredientList. -/
theorem c7_duplicate_ingredient_frame (ctx : RecipeContext) (input : String)
    (err : Option String) (hne : input.isEmpty = false)
    (hdup : indexMapContains ctx.ingredients input = true) :
    RecipeState.handle_key (RecipeState.ingredientList input err) KeyCode.enter ctx
      = (RecipeState.ingredientList "" (some (dupMessage input)), ctx) := by
  simp [RecipeState.handle_key, hne, hdup]

def c7wCtx : RecipeContext :=
  { name := "Pancakes",
    ingredients := [("flour", { status := IngredientStatus.existing 1,
                                quantity_unit := "2 cups", notes := "" })],
    possible_ingredients := [], instructions := [], finished := false }

/-- Witness for c7_duplicate_ingredient_frame at a concrete Draft holding
"flour". -/
theorem c7_duplicate_ingredient_frame_witness :
    RecipeState.handle_key (RecipeState.ingredientList "flour" none) KeyCode.enter c7wCtx
      = (RecipeState.ingredientList ""
          (some (dupMessage "flour")), c7wCtx) :=
  c7_duplicate_ingredient_frame c7wCtx "flour" none rfl (by decide)

/-- Key presses for typing a string character by character. -/
def keysOf (s : String) : List KeyCode := s.data.map KeyCode.char

/-- The exact key sequence of the end-to-end wizard scenario. -/
def c4Keys : List KeyCode :=
  keysOf "Pancakes" ++ [KeyCode.enter] ++
  keysOf "flour" ++ [KeyCode.enter] ++ keysOf "2 cups" ++ [KeyCode.enter] ++ [KeyCode.enter] ++
  keysOf "milk" ++ [KeyCode.enter] ++ [KeyCode.char 'y'] ++
  keysOf "1 cup" ++ [KeyCode.enter] ++ [KeyCode.enter] ++
  [KeyCode.enter] ++ keysOf "Mix" ++ [KeyCode.enter] ++ [KeyCode.enter]

/-- The wizard after feeding the scenario keys, seeded with flour known as
catalog id 1. -/
def c4App : RecipeApp := runKeys (RecipeApp.new [("flour", 1)]) c4Keys

/-- The database at persist time for the scenario: flour already in the
catalog with id 1. -/
def c4Db : DB :=
  { ingredients := [{ id := 1, name := "flour" }], recipes := [], links := [],
    next_ingredient_id := 2, next_recipe_id := 1, next_link_id := 1 }

set_option maxRecDepth 8000 in
/-- C4: the Pancakes key sequence finishes the draft with name "Pancakes",
the two ingredient entries flour Existing(1) then milk New in that order,
one instruction "Mix"; persisting the draft creates exactly the one new
catalog ingredient "milk" and stores the recipe with instructions
Some("Mix"), as get_recipe then reports. -/
theorem c4_end_to_end_scenario :
    c4App.context.finished = true ∧
    c4App.context.name = "Pancakes" ∧
    c4App.context.ingredients
      = [("flour", { status := IngredientStatus.existing 1,
                     quantity_unit := "2 cups", notes := "" }),
         ("milk", { status := IngredientStatus.new,
                    quantity_unit := "1 cup", notes := "" })] ∧
    c4App.context.instructions = ["Mix"] ∧
    (importer_save (fun _ => false) c4Db c4App.context).1 = Except.ok (some 1) ∧
    ((importer_save (fun _ => false) c4Db c4App.context).2).ingredients
      = [{ id := 1, name := "flour" }, { id := 2, name := "milk" }] ∧
    (get_recipe (importer_save (fun _ => false) c4Db c4App.context).2 1).1
      = Except.ok
          { id := 1, name := "Pancakes", instructions := some "Mix",
            ingredients :=
              [{ ingredient_id := 1, ingredient_name := "flour",
                 quantity_unit := "2 cups", notes := none },
               { ingredient_id := 2, ingredient_name := "milk",
                 quantity_unit := "1 cup", notes := none }] } := by
  refine ⟨rfl, rfl, rfl, rfl, rfl, rfl, rfl⟩

/-! Helper lemmas about the importer id-resolution loop. -/

/-- The RecipeIngredient the importer builds for one draft entry, given the
resolved catalog id. -/
def entryRI (name : String) (info : IngredientInfo) (iid : Int) : RecipeIngredient :=
  { ingredient_id := iid, ingredient_name := name,
    quantity_unit := info.quantity_unit,
    notes := if info.notes.isEmpty then none else some info.notes }

/-- Inversion of one successful step of the id-resolution loop. -/
theorem resolve_ingredients_cons_ok {db db2 : DB} {name : String}
    {info : IngredientInfo} {rest : List (String × IngredientInfo)}
    {ris : List RecipeIngredient}
    (h : resolve_ingredients db ((name, info) :: rest) = (Except.ok ris, db2)) :
    ∃ iid db1 ris',
      (match info.status with
       | IngredientStatus.existing id => iid = id ∧ db1 = db
       | IngredientStatus.new => create_ingredient db name = (Except.ok iid, db1)) ∧
      resolve_ingredients db1 rest = (Except.ok ris', db2) ∧
      ris = entryRI name info iid :: ris' := by
  rw [resolve_ingredients] at h
  cases hst : info.status with
  | existing id =>
    rw [hst] at h
    simp only [] at h
    cases hrr : resolve_ingredients db rest with
    | mk res2 db'' =>
      rw [hrr] at h
      cases res2 with
      | error e => simp only [] at h; exact absurd (congrArg Prod.fst h) (by simp)
      | ok ris' =>
        simp only [] at h
        have hdb : db'' = db2 := by exact congrArg Prod.snd h
        have hris : entryRI name info id :: ris' = ris := by
          exact Except.ok.inj (by exact congrArg Prod.fst h)
        refine ⟨id, db, ris', ⟨rfl, rfl⟩, ?_, hris.symm⟩
        rw [hrr, hdb]
  | new =>
    rw [hst] at h
    simp only [] at h
    cases hci : create_ingredient db name with
    | mk res db' =>
      rw [hci] at h
      cases res with
      | error e => simp only [] at h; exact absurd (congrArg Prod.fst h) (by simp)
      | ok iid =>
        simp only [] at h
        cases hrr : resolve_ingredients db' rest with
        | mk res2 db'' =>
          rw [hrr] at h
          cases res2 with
          | error e => simp only [] at h; exact absurd (congrArg Prod.fst h) (by simp)
          | ok ris' =>
            simp only [] at h
            have hdb : db'' = db2 := by exact congrArg Prod.snd h
            have hris : entryRI name info iid :: ris' = ris := by
              exact Except.ok.inj (by exact congrArg Prod.fst h)
            refine ⟨iid, db', ris', ?_, ?_, hris.symm⟩
            · exact rfl
            · rw [hrr, hdb]

/-- Inversion of a successful create_ingredient call. -/
theorem create_ingredient_ok {db db1 : DB} {name : String} {iid : Int}
    (h : create_ingredient db name = (Except.ok iid, db1)) :
    iid = db.next_ingredient_id ∧
      db1 = { db with
                ingredients := db.ingredients ++ [{ id := iid, name := name }],
                next_ingredient_id := iid + 1 } := by
  unfold create_ingredient at h
  by_cases hc : db.ingredients.any (fun r => r.name == name) = true
  · rw [if_pos hc] at h
    exact absurd (congrArg Prod.fst h) (by simp)
  · rw [if_neg hc] at h
    have hid : iid = db.next_ingredient_id := by
      exact (Except.ok.inj (by exact congrArg Prod.fst h)).symm
    subst hid
    exact ⟨rfl, by exact (congrArg Prod.snd h).symm⟩

/-- A successful id-resolution run only appends to the ingredients table and
leaves every other database field unchanged. -/
theorem resolve_ingredients_extends :
    ∀ {entries : List (String × IngredientInfo)} {db db2 : DB}
      {ris : List RecipeIngredient},
      resolve_ingredients db entries = (Except.ok ris, db2) →
      (∃ tail, db2.ingredients = db.ingredients ++ tail) ∧
        db2.recipes = db.recipes ∧ db2.links = db.links ∧
        db2.next_recipe_id = db.next_recipe_id ∧ db2.next_link_id = db.next_link_id
  | [], db, db2, ris => by
    intro h
    rw [resolve_ingredients] at h
    have hdb : db = db2 := by exact congrArg Prod.snd h
    subst hdb
    exact ⟨⟨[], by simp⟩, rfl, rfl, rfl, rfl⟩
  | (name, info) :: rest, db, db2, ris => by
    intro h
    obtain ⟨iid, db1, ris', hm, hrest, -⟩ := resolve_ingredients_cons_ok h
    obtain ⟨⟨tail, htail⟩, h1, h2, h3, h4⟩ := resolve_ingredients_extends hrest
    cases hst : info.status with
    | existing id =>
      rw [hst] at hm
      obtain ⟨-, hdb1⟩ := hm
      subst hdb1
      exact ⟨⟨tail, htail⟩, h1, h2, h3, h4⟩
    | new =>
      rw [hst] at hm
      obtain ⟨-, hdb1⟩ := create_ingredient_ok hm
      subst hdb1
      refine ⟨⟨{ id := iid, name := name } :: tail, ?_⟩, h1, h2, h3, h4⟩
      rw [htail]
      simp

/-- The name, quantity and optional notes of each built RecipeIngredient
come from the draft entries in order; notes are none exactly when the
entered notes string was empty. -/
theorem resolve_ingredients_proj :
    ∀ {entries : List (String × IngredientInfo)} {db db2 : DB}
      {ris : List RecipeIngredient},
      resolve_ingredients db entries = (Except.ok ris, db2) →
      ris.map (fun r => (r.ingredient_name, r.quantity_unit, r.notes))
        = entries.map (fun p =>
            (p.1, p.2.quantity_unit,
             if p.2.notes.isEmpty then none else some p.2.notes))
  | [], db, db2, ris => by
    intro h
    rw [resolve_ingredients] at h
    have hris : ([] : List RecipeIngredient) = ris := by
      exact Except.ok.inj (by exact congrArg Prod.fst h)
    rw [← hris]
    simp
  | (name, info) :: rest, db, db2, ris => by
    intro h
    obtain ⟨iid, db1, ris', -, hrest, hris⟩ := resolve_ingredients_cons_ok h
    subst hris
    simp only [List.map_cons, entryRI]
    exact congrArg _ (resolve_ingredients_proj hrest)

/-- Status correspondence of a successful id-resolution run: an Existing
entry keeps its snapshot id, and a New entry has a catalog row with its
resolved id and its name in the resulting database. -/
theorem resolve_ingredients_status :
    ∀ {entries : List (String × IngredientInfo)} {db db2 : DB}
      {ris : List RecipeIngredient},
      resolve_ingredients db entries = (Except.ok ris, db2) →
      List.Forall₂ (fun (p : String × IngredientInfo) (r : RecipeIngredient) =>
        (∀ id, p.2.status = IngredientStatus.existing id → r.ingredient_id = id) ∧
        (p.2.status = IngredientStatus.new →
          ({ id := r.ingredient_id, name := p.1 } : IngredientRow) ∈ db2.ingredients))
        entries ris
  | [], db, db2, ris => by
    intro h
    rw [resolve_ingredients] at h
    have hris : ([] : List RecipeIngredient) = ris := by
      exact Except.ok.inj (by exact congrArg Prod.fst h)
    rw [← hris]
    exact List.Forall₂.nil
  | (name, info) :: rest, db, db2, ris => by
    intro h
    obtain ⟨iid, db1, ris', hm, hrest, hris⟩ := resolve_ingredients_cons_ok h
    subst hris
    refine List.Forall₂.cons ⟨?_, ?_⟩ (resolve_ingredients_status hrest)
    · intro id hid
      rw [hid] at hm
      exact hm.1.symm ▸ rfl
    · intro hnew
      rw [hnew] at hm
      obtain ⟨-, hdb1⟩ := create_ingredient_ok hm
      obtain ⟨⟨tail, htail⟩, -, -, -, -⟩ := resolve_ingredients_extends hrest
      rw [htail, hdb1]
      simp [entryRI]

/-- Inversion of a successful importer save: the name was non-empty, the id
resolution succeeded, and the create_recipe transaction committed the built
recipe on top of the resolved database. -/
theorem importer_save_ok {fail : Nat → Bool} {db db2 : DB} {ctx : RecipeContext}
    {rid : Int} (h : importer_save fail db ctx = (Except.ok (some rid), db2)) :
    ctx.name.isEmpty = false ∧
    ∃ ris db1, resolve_ingredients db ctx.ingredients = (Except.ok ris, db1) ∧
      rid = db1.next_recipe_id ∧ db2 = commitDB db1 (builtRecipe ctx ris) := by
  unfold importer_save at h
  by_cases hn : ctx.name.isEmpty = true
  · rw [if_pos hn] at h
    exact absurd (Except.ok.inj (by exact congrArg Prod.fst h)) (by simp)
  · rw [if_neg hn] at h
    refine ⟨by simpa using hn, ?_⟩
    cases hres : resolve_ingredients db ctx.ingredients with
    | mk res db1 =>
      rw [hres] at h
      cases res with
      | error e =>
        simp only [] at h
        exact absurd (congrArg Prod.fst h) (by simp)
      | ok ris =>
        simp only [] at h
        cases htx : create_recipe_tx fail db1 (builtRecipe ctx ris) with
        | mk res2 db2' =>
          rw [htx] at h
          cases res2 with
          | error e =>
            simp only [] at h
            exact absurd (congrArg Prod.fst h) (by simp)
          | ok rid' =>
            simp only [] at h
            have hrid : rid' = rid := by
              have := Except.ok.inj (by exact congrArg Prod.fst h)
              exact Option.some.inj this
            have hdb : db2' = db2 := by exact congrArg Prod.snd h
            subst hrid hdb
            obtain ⟨h1, h2, -⟩ := create_recipe_tx_success htx
            exact ⟨ris, db1, rfl, h1, h2⟩

/-- When the importer save fails after a successful id resolution, the
final database is exactly the one the resolution produced: the aborted
create_recipe transaction does not roll back the already created New
ingredient rows, which were made outside it. -/
theorem importer_save_error_keeps_resolved {fail : Nat → Bool} {db db1 db2 : DB}
    {ctx : RecipeContext} {ris : List RecipeIngredient} {e : FeedMeError}
    (hn : ctx.name.isEmpty = false)
    (hres : resolve_ingredients db ctx.ingredients = (Except.ok ris, db1))
    (h : importer_save fail db ctx = (Except.error e, db2)) :
    db2 = db1 := by
  unfold importer_save at h
  rw [if_neg (by simp [hn]), hres] at h
  simp only [] at h
  cases htx : create_recipe_tx fail db1 (builtRecipe ctx ris) with
  | mk res2 db2' =>
    rw [htx] at h
    cases res2 with
    | error e' =>
      simp only [] at h
      have hdb : db2' = db2 := by exact congrArg Prod.snd h
      rw [← hdb]
      exact create_recipe_tx_error htx
    | ok rid =>
      simp only [] at h
      exact absurd (congrArg Prod.fst h) (by simp)

/-- Notes of the inserted link rows are the notes of the built ingredient
entries, in order. -/
theorem mkLinks_map_notes (rid : Int) :
    ∀ (n : Int) (ris : List RecipeIngredient),
      (mkLinks rid n ris).map (fun l => l.notes) = ris.map (fun r => r.notes)
  | _, [] => rfl
  | n, ri :: rest => by
      simp only [mkLinks, List.map_cons, mkLinks_map_notes rid (n + 1) rest]

def c1Db : DB :=
  { ingredients := [], recipes := [], links := [],
    next_ingredient_id := 1, next_recipe_id := 1, next_link_id := 1 }

def c1Ctx : RecipeContext :=
  { name := "R",
    ingredients := [("milk", { status := IngredientStatus.new,
                               quantity_unit := "1 cup", notes := "" })],
    possible_ingredients := [], instructions := [], finished := true }

/-- Failure oracle making exactly the recipe INSERT (step 0) of the
create_recipe transaction fail. -/
def c1FailRecipeInsert : Nat → Bool := fun i => i == 0

def c1Recipe : Recipe :=
  { id := 0, name := "R", instructions := none,
    ingredients := [{ ingredient_id := 7, ingredient_name := "milk",
                      quantity_unit := "1 cup", notes := none }] }

/-- Counterexample to C1 as stated: (a) persisting a draft with the New
ingredient "milk" while the create_recipe transaction aborts at its very
first step still leaves the freshly created "milk" catalog row behind and
no recipe, so the creation of the missing ingredient row did not happen
inside the create_recipe transaction; (b) create_recipe called directly
with a reference naming "milk" under an id absent from the catalog commits
happily without looking the name up or creating any catalog row. -/
theorem c1_counterexample :
    (importer_save c1FailRecipeInsert c1Db c1Ctx).1
      = Except.error (FeedMeError.Database SqlxError.storageFailure) ∧
    ((importer_save c1FailRecipeInsert c1Db c1Ctx).2).ingredients
      = [{ id := 1, name := "milk" }] ∧
    ((importer_save c1FailRecipeInsert c1Db c1Ctx).2).recipes = [] ∧
    (create_recipe c1Db c1Recipe).1 = Except.ok 1 ∧
    ((create_recipe c1Db c1Recipe).2).ingredients = [] :=
  ⟨rfl, rfl, rfl, rfl, rfl⟩

/-- C1 as amended: create_recipe links every ingredient reference by its
carried ingredient_id directly and never reads or writes the ingredients
table; references marked New are created unconditionally by separate
create_ingredient calls issued by the importer before create_recipe runs,
outside its transaction, so an abort of the recipe transaction leaves them
in place. -/
theorem c1_resolution_amended :
    (∀ (fail : Nat → Bool) (db : DB) (recipe : Recipe),
      ((create_recipe_tx fail db recipe).2).ingredients = db.ingredients) ∧
    (∀ (fail : Nat → Bool) (db db2 : DB) (recipe : Recipe) (rid : Int),
      create_recipe_tx fail db recipe = (Except.ok rid, db2) →
      db2.links = db.links ++ mkLinks rid db.next_link_id recipe.ingredients) ∧
    (∀ (db db2 : DB) (ctx : RecipeContext) (ris : List RecipeIngredient),
      resolve_ingredients db ctx.ingredients = (Except.ok ris, db2) →
      List.Forall₂ (fun (p : String × IngredientInfo) (r : RecipeIngredient) =>
        (∀ id, p.2.status = IngredientStatus.existing id → r.ingredient_id = id) ∧
        (p.2.status = IngredientStatus.new →
          ({ id := r.ingredient_id, name := p.1 } : IngredientRow) ∈ db2.ingredients))
        ctx.ingredients ris) ∧
    (∀ (fail : Nat → Bool) (db db1 db2 : DB) (ctx : RecipeContext)
       (ris : List RecipeIngredient) (e : FeedMeError),
      ctx.name.isEmpty = false →
      resolve_ingredients db ctx.ingredients = (Except.ok ris, db1) →
      importer_save fail db ctx = (Except.error e, db2) → db2 = db1) := by
  refine ⟨?_, ?_, ?_, ?_⟩
  · intro fail db recipe
    rw [create_recipe_tx_eq]
    by_cases hall : ∀ j < recipe.ingredients.length + 2, fail j = false
    · rw [if_pos hall]
      rfl
    · rw [if_neg hall]
  · intro fail db db2 recipe rid h
    obtain ⟨h1, h2, -⟩ := create_recipe_tx_success h
    subst h1 h2
    rfl
  · intro db db2 ctx ris h
    exact resolve_ingredients_status h
  · intro fail db db1 db2 ctx ris e hn hres h
    exact importer_save_error_keeps_resolved hn hres h

def c1wDb1 : DB :=
  { ingredients := [{ id := 1, name := "milk" }], recipes := [], links := [],
    next_ingredient_id := 2, next_recipe_id := 1, next_link_id := 1 }

def c1wRis : List RecipeIngredient :=
  [{ ingredient_id := 1, ingredient_name := "milk",
     quantity_unit := "1 cup", notes := none }]

/-- Witness for c1_resolution_amended, exercising each hypothesis-bearing
part at the concrete scenario of the counterexample. -/
theorem c1_resolution_amended_witness :
    ((create_recipe_tx (fun _ => false) c1wDb1 c1Recipe).2).links
       = c1wDb1.links ++ mkLinks 1 c1wDb1.next_link_id c1Recipe.ingredients ∧
    List.Forall₂ (fun (p : String × IngredientInfo) (r : RecipeIngredient) =>
        (∀ id, p.2.status = IngredientStatus.existing id → r.ingredient_id = id) ∧
        (p.2.status = IngredientStatus.new →
          ({ id := r.ingredient_id, name := p.1 } : IngredientRow) ∈ c1wDb1.ingredients))
        c1Ctx.ingredients c1wRis ∧
    (importer_save c1FailRecipeInsert c1Db c1Ctx).2 = c1wDb1 :=
  ⟨c1_resolution_amended.2.1 (fun _ => false) c1wDb1
      ((create_recipe_tx (fun _ => false) c1wDb1 c1Recipe).2) c1Recipe 1 rfl,
   c1_resolution_amended.2.2.1 c1Db c1wDb1 c1Ctx c1wRis rfl,
   c1_resolution_amended.2.2.2 c1FailRecipeInsert c1Db c1wDb1
      ((importer_save c1FailRecipeInsert c1Db c1Ctx).2) c1Ctx c1wRis
      (FeedMeError.Database SqlxError.storageFailure) rfl rfl rfl⟩

/-- C8: whenever the importer persists a finished draft, the stored recipe
row's instructions field is absent exactly when no instruction step was
entered and otherwise is the entered steps joined by the literal newline in
entry order, and the notes column of each inserted link row is absent
exactly when the notes string entered for that ingredient was empty. -/
theorem c8_persisted_notes_instructions
    (fail : Nat → Bool) (db db2 : DB) (ctx : RecipeContext) (rid : Int)
    (h : importer_save fail db ctx = (Except.ok (some rid), db2)) :
    ∃ ris db1, resolve_ingredients db ctx.ingredients = (Except.ok ris, db1) ∧
      db2.recipes = db1.recipes ++
        [{ id := rid, name := ctx.name,
           instructions :=
             if ctx.instructions.isEmpty then none
             else some (String.intercalate "\n" ctx.instructions) }] ∧
      db2.links = db1.links ++ mkLinks rid db1.next_link_id ris ∧
      (mkLinks rid db1.next_link_id ris).map (fun l => l.notes)
        = ctx.ingredients.map (fun p =>
            if p.2.notes.isEmpty then none else some p.2.notes) := by
  obtain ⟨-, ris, db1, hres, hrid, hdb2⟩ := importer_save_ok h
  refine ⟨ris, db1, hres, ?_, ?_, ?_⟩
  · rw [hdb2, hrid]
    rfl
  · rw [hdb2, hrid]
    rfl
  · rw [mkLinks_map_notes]
    have hproj := resolve_ingredients_proj hres
    have := congrArg (List.map (fun t : String × String × Option String => t.2.2)) hproj
    simpa [List.map_map, Function.comp] using this

def c8wDb : DB :=
  { ingredients := [{ id := 5, name := "salt" }], recipes := [], links := [],
    next_ingredient_id := 6, next_recipe_id := 1, next_link_id := 1 }

def c8wCtx : RecipeContext :=
  { name := "Soup",
    ingredients :=
      [("water", { status := IngredientStatus.new, quantity_unit := "2 l", notes := "" }),
       ("salt", { status := IngredientStatus.existing 5, quantity_unit := "1 tsp",
                  notes := "to taste" })],
    possible_ingredients := [("salt", 5)],
    instructions := ["boil", "season"], finished := true }

/-- Witness for c8_persisted_notes_instructions at a concrete two-entry
draft with two instruction steps. -/
theorem c8_persisted_notes_instructions_witness :
    ∃ ris db1,
      resolve_ingredients c8wDb c8wCtx.ingredients = (Except.ok ris, db1) ∧
      ((importer_save (fun _ => false) c8wDb c8wCtx).2).recipes = db1.recipes ++
        [{ id := 1, name := c8wCtx.name,
           instructions :=
             if c8wCtx.instructions.isEmpty then none
             else some (String.intercalate "\n" c8wCtx.instructions) }] ∧
      ((importer_save (fun _ => false) c8wDb c8wCtx).2).links
        = db1.links ++ mkLinks 1 db1.next_link_id ris ∧
      (mkLinks 1 db1.next_link_id ris).map (fun l => l.notes)
        = c8wCtx.ingredients.map (fun p =>
            if p.2.notes.isEmpty then none else some p.2.notes) :=
  c8_persisted_notes_instructions (fun _ => false) c8wDb
    ((importer_save (fun _ => false) c8wDb c8wCtx).2) c8wCtx 1 rfl

/-! Helper lemmas about the shopping-list aggregation. -/

/-- The quantity values contributed to one ingredient name, in the order
the rows were read. -/
def groupSpec (rows : List ShoppingRow) (n : String) : List String :=
  (rows.filter (fun r => r.ingredient_name == n)).map (fun r => r.quantity_unit)

theorem groupSpec_cons (r : ShoppingRow) (rows : List ShoppingRow) (n : String) :
    groupSpec (r :: rows) n
      = if r.ingredient_name == n then r.quantity_unit :: groupSpec rows n
        else groupSpec rows n := by
  unfold groupSpec
  rw [List.filter_cons]
  by_cases h : r.ingredient_name == n
  · rw [if_pos h, if_pos h, List.map_cons]
  · rw [if_neg h, if_neg h]

/-- One grouping step never changes existing keys; a missing key is
appended at the end. -/
theorem pushQuantity_keys (acc : List (String × List String)) (name qty : String) :
    (pushQuantity acc name qty).map Prod.fst
      = if acc.any (fun p => p.1 == name) then acc.map Prod.fst
        else acc.map Prod.fst ++ [name] := by
  unfold pushQuantity
  by_cases hc : acc.any (fun p => p.1 == name) = true
  · rw [if_pos hc, if_pos hc, List.map_map]
    apply List.map_congr_left
    intro p _
    by_cases hpn : p.1 = name
    · rw [Function.comp_apply, if_pos (by simpa using hpn)]
    · rw [Function.comp_apply, if_neg (by simpa using hpn)]
  · rw [if_neg hc, if_neg hc]
    simp

/-- Key membership after the whole grouping loop. -/
theorem groupRows_keys_mem :
    ∀ (rows : List ShoppingRow) (acc : List (String × List String)) (n : String),
      n ∈ (rows.foldl (fun a r => pushQuantity a r.ingredient_name r.quantity_unit) acc).map
            Prod.fst
        ↔ n ∈ acc.map Prod.fst ∨ n ∈ rows.map (fun r => r.ingredient_name)
  | [], acc, n => by simp
  | r :: rest, acc, n => by
    rw [List.foldl_cons, groupRows_keys_mem rest _ n, pushQuantity_keys]
    by_cases hc : acc.any (fun p => p.1 == r.ingredient_name) = true
    · rw [if_pos hc]
      obtain ⟨p, hp, hpe⟩ := List.any_eq_true.mp hc
      have hkey : r.ingredient_name ∈ acc.map Prod.fst :=
        List.mem_map.mpr ⟨p, hp, by simpa using hpe⟩
      simp only [List.map_cons, List.mem_cons]
      constructor
      · rintro (h | h)
        · exact Or.inl h
        · exact Or.inr (Or.inr h)
      · rintro (h | h | h)
        · exact Or.inl h
        · exact Or.inl (by rw [h]; exact hkey)
        · exact Or.inr h
    · rw [if_neg hc]
      simp only [List.mem_append, List.mem_singleton, List.map_cons, List.mem_cons]
      tauto

/-- The grouping loop keeps the keys distinct. -/
theorem groupRows_keys_nodup :
    ∀ (rows : List ShoppingRow) (acc : List (String × List String)),
      (acc.map Prod.fst).Nodup →
      ((rows.foldl (fun a r => pushQuantity a r.ingredient_name r.quantity_unit) acc).map
        Prod.fst).Nodup
  | [], _, h => h
  | r :: rest, acc, h => by
    rw [List.foldl_cons]
    apply groupRows_keys_nodup rest
    rw [pushQuantity_keys]
    by_cases hc : acc.any (fun p => p.1 == r.ingredient_name) = true
    · rw [if_pos hc]
      exact h
    · rw [if_neg hc]
      rw [List.nodup_append]
      refine ⟨h, List.nodup_singleton _, ?_⟩
      intro a ha hb
      rw [List.mem_singleton.mp hb] at ha
      obtain ⟨p, hp, hpe⟩ := List.mem_map.mp ha
      exact hc (List.any_eq_true.mpr ⟨p, hp, by simp [hpe]⟩)

/-- Every group produced by the grouping loop holds exactly the quantity
values of its key, in row order, possibly after quantities already present
in the accumulator. -/
theorem groupRows_values :
    ∀ (rows : List ShoppingRow) (acc : List (String × List String))
      (p : String × List String),
      p ∈ rows.foldl (fun a r => pushQuantity a r.ingredient_name r.quantity_unit) acc →
      (∃ qs0, (p.1, qs0) ∈ acc ∧ p.2 = qs0 ++ groupSpec rows p.1) ∨
      ((∀ q ∈ acc, q.1 ≠ p.1) ∧ p.2 = groupSpec rows p.1)
  | [], acc, p => by
    intro hp
    exact Or.inl ⟨p.2, by simpa using hp, by simp [groupSpec]⟩
  | r :: rest, acc, p => by
    intro hp
    rw [List.foldl_cons] at hp
    have hacc' := groupRows_values rest _ p hp
    rcases hacc' with ⟨qs0, hmem, hval⟩ | ⟨hnot, hval⟩
    · -- the key was already present after the first step
      unfold pushQuantity at hmem
      by_cases hc : acc.any (fun q => q.1 == r.ingredient_name) = true
      · rw [if_pos hc] at hmem
        obtain ⟨q, hq, hqe⟩ := List.mem_map.mp hmem
        by_cases hqn : q.1 = r.ingredient_name
        · rw [if_pos (by simpa using hqn)] at hqe
          have h1 : q.1 = p.1 := by
            have := congrArg Prod.fst hqe
            simpa using this
          have h2 : q.2 ++ [r.quantity_unit] = qs0 := by
            have := congrArg Prod.snd hqe
            simpa using this
          refine Or.inl ⟨q.2, by rw [← h1]; exact hq, ?_⟩
          rw [hval, ← h2, groupSpec_cons,
            if_pos (by simp only [beq_iff_eq]; exact hqn.symm.trans h1)]
          simp
        · rw [if_neg (by simpa using hqn)] at hqe
          have h1 : q.1 = p.1 := by rw [hqe]
          refine Or.inl ⟨qs0, hqe ▸ hq, ?_⟩
          rw [hval, groupSpec_cons, if_neg]
          simp only [beq_iff_eq]
          intro he
          exact hqn (by rw [h1, ← he])
      · rw [if_neg hc] at hmem
        rcases List.mem_append.mp hmem with hin | hone
        · -- key already in acc, hence distinct from the new one
          refine Or.inl ⟨qs0, hin, ?_⟩
          rw [hval, groupSpec_cons, if_neg]
          simp only [beq_iff_eq]
          intro he
          exact hc (List.any_eq_true.mpr ⟨(p.1, qs0), hin, by simp [he]⟩)
        · -- this is the freshly appended group
          have h1 : r.ingredient_name = p.1 := by
            have := congrArg Prod.fst (List.mem_singleton.mp hone).symm
            simpa using this
          have h2 : qs0 = [r.quantity_unit] := by
            have := congrArg Prod.snd (List.mem_singleton.mp hone)
            simpa using this
          refine Or.inr ⟨?_, ?_⟩
          · intro q hq he
            exact hc (List.any_eq_true.mpr ⟨q, hq, by simp [he, h1]⟩)
          · rw [hval, h2, groupSpec_cons, if_pos (by simp [h1])]
            simp
    · -- the key is absent even after the first step
      have hr : r.ingredient_name ≠ p.1 := by
        intro he
        unfold pushQuantity at hnot
        by_cases hc : acc.any (fun q => q.1 == r.ingredient_name) = true
        · rw [if_pos hc] at hnot
          obtain ⟨q, hq, hqe⟩ := List.any_eq_true.mp hc
          have hq1 : q.1 = r.ingredient_name := by simpa using hqe
          have helem := hnot _ (List.mem_map_of_mem _ hq)
          rw [if_pos (show (q.1 == r.ingredient_name) = true by simpa using hq1)] at helem
          exact helem (hq1.trans he)
        · rw [if_neg hc] at hnot
          exact hnot (r.ingredient_name, [r.quantity_unit])
            (List.mem_append.mpr (Or.inr (List.mem_singleton.mpr rfl))) he
      refine Or.inr ⟨?_, ?_⟩
      · intro q hq
        unfold pushQuantity at hnot
        by_cases hc : acc.any (fun z => z.1 == r.ingredient_name) = true
        · rw [if_pos hc] at hnot
          have hthis := hnot _ (List.mem_map_of_mem _ hq)
          by_cases hqn : q.1 = r.ingredient_name
          · rw [if_pos (show (q.1 == r.ingredient_name) = true by simpa using hqn)] at hthis
            exact hthis
          · rw [if_neg (show ¬(q.1 == r.ingredient_name) = true by simpa using hqn)] at hthis
            exact hthis
        · rw [if_neg hc] at hnot
          exact hnot q (List.mem_append.mpr (Or.inl hq))
      · rw [hval, groupSpec_cons, if_neg (by simpa using hr)]

/-- Ordered insertion of items compares only names, so it commutes with
building items from names. -/
theorem orderedInsert_map_item (f : String → ShoppingListItem)
    (hf : ∀ a, (f a).ingredient_name = a) (a : String) :
    ∀ (l : List String),
      List.orderedInsert itemLE (f a) (l.map f)
        = (List.orderedInsert strLE a l).map f
  | [] => rfl
  | b :: l => by
    simp only [List.map_cons, List.orderedInsert]
    have hiff : itemLE (f a) (f b) ↔ strLE a b := by rw [itemLE, hf, hf]
    by_cases hab : strLE a b
    · rw [if_pos (hiff.mpr hab), if_pos hab, List.map_cons, List.map_cons]
    · rw [if_neg (fun hh => hab (hiff.mp hh)), if_neg hab, List.map_cons,
        orderedInsert_map_item f hf a l]

/-- Sorting items built from names is building items from the sorted
names. -/
theorem insertionSort_map_item (f : String → ShoppingListItem)
    (hf : ∀ a, (f a).ingredient_name = a) :
    ∀ (l : List String),
      List.insertionSort itemLE (l.map f)
        = (List.insertionSort strLE l).map f
  | [] => rfl
  | a :: l => by
    simp only [List.map_cons, List.insertionSort, insertionSort_map_item f hf l,
      orderedInsert_map_item f hf a]

/-- Totality of the lexicographic comparison. -/
theorem strLeb_total : ∀ (as bs : List Char), strLeb as bs = true ∨ strLeb bs as = true
  | [], _ => Or.inl rfl
  | _ :: _, [] => Or.inr rfl
  | a :: as, b :: bs => by
    rcases lt_trichotomy a b with h | h | h
    · left
      simp [strLeb, h]
    · subst h
      rcases strLeb_total as bs with h2 | h2
      · left
        simp [strLeb, h2]
      · right
        simp [strLeb, h2]
    · right
      simp [strLeb, h]

/-- Transitivity of the lexicographic comparison. -/
theorem strLeb_trans : ∀ (as bs cs : List Char),
    strLeb as bs = true → strLeb bs cs = true → strLeb as cs = true
  | [], _, _ => fun _ _ => rfl
  | _ :: _, [], _ => fun h _ => by simp [strLeb] at h
  | _ :: _, _ :: _, [] => fun _ h => by simp [strLeb] at h
  | a :: as, b :: bs, c :: cs => by
    intro h1 h2
    simp only [strLeb] at h1 h2 ⊢
    by_cases hab : a < b
    · by_cases hbc : b < c
      · rw [if_pos (lt_trans hab hbc)]
      · rw [if_neg hbc] at h2
        by_cases hbc2 : b = c
        · rw [if_pos (show a < c from hbc2 ▸ hab)]
        · rw [if_neg hbc2] at h2
          exact absurd h2 (by simp)
    · rw [if_neg hab] at h1
      by_cases hab2 : a = b
      · rw [if_pos hab2] at h1
        subst hab2
        by_cases hbc : a < c
        · rw [if_pos hbc]
        · rw [if_neg hbc] at h2 ⊢
          by_cases hbc2 : a = c
          · rw [if_pos hbc2] at h2 ⊢
            exact strLeb_trans as bs cs h1 h2
          · rw [if_neg hbc2] at h2
            exact absurd h2 (by simp)
      · rw [if_neg hab2] at h1
        exact absurd h1 (by simp)

/-- Antisymmetry of the lexicographic comparison. -/
theorem strLeb_antisymm : ∀ (as bs : List Char),
    strLeb as bs = true → strLeb bs as = true → as = bs
  | [], [] => fun _ _ => rfl
  | [], _ :: _ => fun _ h => by simp [strLeb] at h
  | _ :: _, [] => fun h _ => by simp [strLeb] at h
  | a :: as, b :: bs => by
    intro h1 h2
    simp only [strLeb] at h1 h2
    by_cases hab : a < b
    · rw [if_neg (asymm hab), if_neg (ne_of_gt hab)] at h2
      exact absurd h2 (by simp)
    · rw [if_neg hab] at h1
      by_cases hab2 : a = b
      · subst hab2
        rw [if_pos rfl] at h1
        rw [if_neg (lt_irrefl a), if_pos rfl] at h2
        rw [strLeb_antisymm as bs h1 h2]
      · rw [if_neg hab2] at h1
        exact absurd h1 (by simp)

instance : IsTotal String strLE :=
  ⟨fun a b => strLeb_total a.data b.data⟩

instance : IsTrans String strLE :=
  ⟨fun a b c => strLeb_trans a.data b.data c.data⟩

instance : IsAntisymm String strLE :=
  ⟨fun a b h1 h2 => by
    cases a with
    | mk as =>
      cases b with
      | mk bs =>
        exact congrArg String.mk (strLeb_antisymm as bs h1 h2)⟩

/-- Two duplicate-free name lists with the same members sort to the same
list. -/
theorem insertionSort_eq_of_mem_iff {l1 l2 : List String}
    (h1 : l1.Nodup) (h2 : l2.Nodup) (hm : ∀ a, a ∈ l1 ↔ a ∈ l2) :
    List.insertionSort strLE l1
      = List.insertionSort strLE l2 := by
  have hp : l1.Perm l2 :=
    List.perm_of_nodup_nodup_toFinset_eq h1 h2 (by
      ext a
      simp [List.mem_toFinset, hm a])
  have hperm : (List.insertionSort strLE l1).Perm
      (List.insertionSort strLE l2) :=
    ((List.perm_insertionSort _ l1).trans hp).trans (List.perm_insertionSort _ l2).symm
  exact List.eq_of_perm_of_sorted hperm
    (List.sorted_insertionSort _ l1) (List.sorted_insertionSort _ l2)

/-- The keys of the grouped rows are distinct. -/
theorem groupRows_nodup (rows : List ShoppingRow) :
    ((groupRows rows).map Prod.fst).Nodup := by
  unfold groupRows
  exact groupRows_keys_nodup rows [] (by simp)

/-- The keys of the grouped rows are exactly the fetched names. -/
theorem groupRows_mem (rows : List ShoppingRow) (n : String) :
    n ∈ (groupRows rows).map Prod.fst ↔ n ∈ rows.map (fun r => r.ingredient_name) := by
  unfold groupRows
  rw [groupRows_keys_mem]
  simp

/-- Characterization of generate_shopping_list on a non-empty id list: one
item per distinct fetched ingredient name, sorted by name, each carrying
the joined quantities of that name in row order. -/
theorem generate_shopping_list_eq (db : DB) (ids : List Int) (hne : ids ≠ []) :
    generate_shopping_list db ids
      = (List.insertionSort strLE
           ((shoppingRows db ids).map (fun r => r.ingredient_name)).dedup).map
          (fun n => { ingredient_name := n,
                      combined_quantity :=
                        String.intercalate " + " (groupSpec (shoppingRows db ids) n) }) := by
  unfold generate_shopping_list
  rw [if_neg (by simpa using hne)]
  have hval : ∀ p ∈ groupRows (shoppingRows db ids),
      p.2 = groupSpec (shoppingRows db ids) p.1 := by
    intro p hp
    rcases groupRows_values (shoppingRows db ids) [] p hp with ⟨qs0, hmem, -⟩ | ⟨-, hv⟩
    · exact absurd hmem (List.not_mem_nil _)
    · exact hv
  have hstep1 : (groupRows (shoppingRows db ids)).map (fun p =>
        ({ ingredient_name := p.1,
           combined_quantity := String.intercalate " + " p.2 } : ShoppingListItem))
      = ((groupRows (shoppingRows db ids)).map Prod.fst).map (fun n =>
        ({ ingredient_name := n,
           combined_quantity :=
             String.intercalate " + " (groupSpec (shoppingRows db ids) n) } :
          ShoppingListItem)) := by
    rw [List.map_map]
    apply List.map_congr_left
    intro p hp
    rw [Function.comp_apply, hval p hp]
  have hmm : ∀ a, a ∈ (groupRows (shoppingRows db ids)).map Prod.fst
      ↔ a ∈ ((shoppingRows db ids).map (fun r => r.ingredient_name)).dedup := by
    intro a
    rw [List.mem_dedup]
    exact groupRows_mem (shoppingRows db ids) a
  rw [hstep1, insertionSort_map_item _ (fun a => rfl),
    insertionSort_eq_of_mem_iff (groupRows_nodup (shoppingRows db ids))
      (List.nodup_dedup _) hmm]

/-- The fetched row set only depends on the recipe id list through id
membership. -/
theorem shoppingRows_congr (db : DB) {l1 l2 : List Int}
    (h : ∀ x : Int, l1.contains x = l2.contains x) :
    shoppingRows db l1 = shoppingRows db l2 := by
  unfold shoppingRows
  have hfun : (fun l : LinkRow => if l1.contains l.recipe_id then rowOf db l else none)
      = (fun l : LinkRow => if l2.contains l.recipe_id then rowOf db l else none) := by
    funext l
    rw [h l.recipe_id]
  rw [hfun]

/-- The whole shopping list only depends on the id list through membership
and emptiness. -/
theorem generate_shopping_list_congr (db : DB) {l1 l2 : List Int}
    (hc : ∀ x : Int, l1.contains x = l2.contains x) (he : l1.isEmpty = l2.isEmpty) :
    generate_shopping_list db l1 = generate_shopping_list db l2 := by
  unfold generate_shopping_list
  rw [he, shoppingRows_congr db hc]

/-- C5: with an empty id list generate_shopping_list answers the empty
sequence running zero queries; with a non-empty id list it yields one item
per distinct fetched ingredient name sorted ascending, each combining that
name's quantity values in row-read order with the literal separator. -/
theorem c5_shopping_list_shape :
    (∀ db : DB, generate_shopping_list_st db [] = ([], db, 0)) ∧
    (∀ (db : DB) (ids : List Int), ids ≠ [] →
      generate_shopping_list db ids
        = (List.insertionSort strLE
             ((shoppingRows db ids).map (fun r => r.ingredient_name)).dedup).map
            (fun n =>
              { ingredient_name := n,
                combined_quantity :=
                  String.intercalate " + "
                    (((shoppingRows db ids).filter
                        (fun r => r.ingredient_name == n)).map
                      (fun r => r.quantity_unit)) })) :=
  ⟨fun _ => rfl, fun db ids hne => generate_shopping_list_eq db ids hne⟩

def c5wDb : DB :=
  { ingredients := [{ id := 1, name := "flour" }, { id := 2, name := "milk" }],
    recipes := [{ id := 1, name := "Pancakes", instructions := none },
                { id := 2, name := "Bread", instructions := none }],
    links := [{ id := 1, recipe_id := 1, ingredient_id := 1,
                quantity_unit := "2 cups", notes := none },
              { id := 2, recipe_id := 1, ingredient_id := 2,
                quantity_unit := "1 cup", notes := none },
              { id := 3, recipe_id := 2, ingredient_id := 1,
                quantity_unit := "3 cups", notes := none }],
    next_ingredient_id := 3, next_recipe_id := 3, next_link_id := 4 }

/-- Witness for c5_shopping_list_shape on the flour-sharing two-recipe
database of the spec example. -/
theorem c5_shopping_list_shape_witness :
    ([1, 2] : List Int) ≠ [] ∧
    generate_shopping_list c5wDb [1, 2]
      = [{ ingredient_name := "flour", combined_quantity := "2 cups + 3 cups" },
         { ingredient_name := "milk", combined_quantity := "1 cup" }] :=
  ⟨by decide, by
    rw [c5_shopping_list_shape.2 c5wDb [1, 2] (by decide)]
    rfl⟩

/-- C6: generate_shopping_list is a pure read leaving the database as it
was, and two permutations of the same recipe ids give identical output. -/
theorem c6_pure_read_permutation_invariant :
    (∀ (db : DB) (ids : List Int), (generate_shopping_list_st db ids).2.1 = db) ∧
    (∀ (db : DB) (l1 l2 : List Int), l1.Perm l2 →
      generate_shopping_list_st db l1 = generate_shopping_list_st db l2) := by
  constructor
  · intro db ids
    unfold generate_shopping_list_st
    by_cases h : ids.isEmpty = true <;> simp [h]
  · intro db l1 l2 hp
    have hc : ∀ x : Int, l1.contains x = l2.contains x := by
      intro x
      rw [Bool.eq_iff_iff, List.elem_iff, List.elem_iff]
      exact hp.mem_iff
    have he : l1.isEmpty = l2.isEmpty := by
      have := hp.length_eq
      cases l1 <;> cases l2 <;> simp_all
    unfold generate_shopping_list_st
    rw [he, generate_shopping_list_congr db hc he]

def c6wDb : DB :=
  { ingredients := [{ id := 1, name := "flour" }],
    recipes := [{ id := 1, name := "A", instructions := none },
                { id := 2, name := "B", instructions := none }],
    links := [{ id := 1, recipe_id := 1, ingredient_id := 1,
                quantity_unit := "2 cups", notes := none },
              { id := 2, recipe_id := 2, ingredient_id := 1,
                quantity_unit := "3 cups", notes := none }],
    next_ingredient_id := 2, next_recipe_id := 3, next_link_id := 3 }

/-- Witness for c6_pure_read_permutation_invariant at the swapped id
lists. -/
theorem c6_pure_read_permutation_invariant_witness :
    generate_shopping_list_st c6wDb [1, 2] = generate_shopping_list_st c6wDb [2, 1] :=
  c6_pure_read_permutation_invariant.2 c6wDb [1, 2] [2, 1] (by decide)

/-- C10: repeated recipe ids contribute once: the output equals the output
on the deduplicated id list. -/
theorem c10_duplicate_recipe_ids (db : DB) (ids : List Int) :
    generate_shopping_list db ids = generate_shopping_list db ids.dedup := by
  apply generate_shopping_list_congr
  · intro x
    rw [Bool.eq_iff_iff, List.elem_iff, List.elem_iff]
    exact (List.mem_dedup).symm
  · rw [Bool.eq_iff_iff, List.isEmpty_iff, List.isEmpty_iff, List.dedup_eq_nil]

/-! Helper lemmas for the create_recipe / get_recipe round trip. -/

/-- Every link row built by the insertion loop carries the new recipe id. -/
theorem mkLinks_recipe_id (rid : Int) :
    ∀ (n : Int) (ris : List RecipeIngredient) (l : LinkRow),
      l ∈ mkLinks rid n ris → l.recipe_id = rid
  | _, [], l => by intro h; simp [mkLinks] at h
  | n, ri :: rest, l => by
    intro h
    rcases List.mem_cons.mp h with h1 | h2
    · rw [h1]
    · exact mkLinks_recipe_id rid (n + 1) rest l h2

/-- Link ids in the built rows start at the given counter. -/
theorem mkLinks_id_lower (rid : Int) :
    ∀ (n : Int) (ris : List RecipeIngredient) (l : LinkRow),
      l ∈ mkLinks rid n ris → n ≤ l.id
  | _, [], l => by intro h; simp [mkLinks] at h
  | n, ri :: rest, l => by
    intro h
    rcases List.mem_cons.mp h with h1 | h2
    · rw [h1]
    · exact le_trans (by omega) (mkLinks_id_lower rid (n + 1) rest l h2)

/-- The built link rows are already in ORDER BY id order. -/
theorem mkLinks_sorted (rid : Int) :
    ∀ (n : Int) (ris : List RecipeIngredient), List.Sorted linkLE (mkLinks rid n ris)
  | _, [] => List.sorted_nil
  | n, ri :: rest => by
    rw [mkLinks, List.sorted_cons]
    refine ⟨?_, mkLinks_sorted rid (n + 1) rest⟩
    intro l hl
    have h2 := mkLinks_id_lower rid (n + 1) rest l hl
    exact le_trans (show (n : Int) ≤ n + 1 by omega) h2

/-- On a catalog with distinct ids, looking a member row up by its id finds
exactly that row. -/
theorem find?_row_of_mem :
    ∀ (l : List IngredientRow), (l.map (fun r => r.id)).Nodup →
      ∀ (iid : Int) (nm : String),
        ({ id := iid, name := nm } : IngredientRow) ∈ l →
        l.find? (fun i => i.id == iid) = some { id := iid, name := nm }
  | [], _, iid, nm => by intro h; simp at h
  | a :: l, hnd, iid, nm => by
    intro hm
    rcases List.mem_cons.mp hm with h1 | h2
    · rw [← h1, List.find?_cons_of_pos _ (by simp), h1]
    · have hne : a.id ≠ iid := by
        intro he
        have hmm : iid ∈ l.map (fun r => r.id) := by
          have := List.mem_map_of_mem (fun r : IngredientRow => r.id) h2
          simpa using this
        rw [List.map_cons, List.nodup_cons] at hnd
        exact hnd.1 (he ▸ hmm)
      rw [List.find?_cons_of_neg _ (by simp [hne])]
      exact find?_row_of_mem l (by
        rw [List.map_cons, List.nodup_cons] at hnd
        exact hnd.2) iid nm h2

/-- Joining the built link rows back against the catalog rebuilds the input
ingredient entries. -/
theorem mkLinks_filterMap_rebuild (db : DB) (rid : Int)
    (hids : (db.ingredients.map (fun r => r.id)).Nodup) :
    ∀ (ris : List RecipeIngredient) (n : Int),
      (∀ ri ∈ ris,
        ({ id := ri.ingredient_id, name := ri.ingredient_name } : IngredientRow)
          ∈ db.ingredients) →
      (mkLinks rid n ris).filterMap (fun l =>
        (db.ingredients.find? (fun i => i.id == l.ingredient_id)).map (fun i =>
          ({ ingredient_id := l.ingredient_id, ingredient_name := i.name,
             quantity_unit := l.quantity_unit, notes := l.notes } : RecipeIngredient)))
        = ris
  | [], _, _ => rfl
  | ri :: rest, n, hmem => by
    have hfind := find?_row_of_mem db.ingredients hids
      ri.ingredient_id ri.ingredient_name (hmem ri (by simp))
    simp only [mkLinks, List.filterMap_cons]
    rw [hfind]
    simp only [Option.map_some']
    rw [mkLinks_filterMap_rebuild db rid hids rest (n + 1)
      (fun r hr => hmem r (List.mem_cons_of_mem ri hr))]

/-- C3: creating a recipe and fetching it back returns the same name, the
same instructions and the same ingredient entries in insertion order, under
the schema invariants: catalog ids are distinct, the catalog holds each
referenced (id, name) pair, and no existing recipe row or link row already
uses the fresh recipe id. -/
theorem c3_create_get_roundtrip (db : DB) (recipe : Recipe)
    (hmem : ∀ ri ∈ recipe.ingredients,
      ({ id := ri.ingredient_id, name := ri.ingredient_name } : IngredientRow)
        ∈ db.ingredients)
    (hids : (db.ingredients.map (fun r => r.id)).Nodup)
    (hrec : ∀ r ∈ db.recipes, r.id ≠ db.next_recipe_id)
    (hlink : ∀ l ∈ db.links, l.recipe_id ≠ db.next_recipe_id) :
    create_recipe db recipe = (Except.ok db.next_recipe_id, commitDB db recipe) ∧
    (get_recipe (commitDB db recipe) db.next_recipe_id).1
      = Except.ok
          { id := db.next_recipe_id, name := recipe.name,
            instructions := recipe.instructions,
            ingredients := recipe.ingredients } := by
  refine ⟨create_recipe_happy db recipe, ?_⟩
  have hfind : (commitDB db recipe).recipes.find?
      (fun r => r.id == db.next_recipe_id)
      = some { id := db.next_recipe_id, name := recipe.name,
               instructions := recipe.instructions } := by
    show (db.recipes ++ [_]).find? _ = _
    rw [List.find?_append]
    have h1 : db.recipes.find? (fun r => r.id == db.next_recipe_id) = none := by
      rw [List.find?_eq_none]
      intro r hr
      simp [hrec r hr]
    rw [h1]
    simp
  have hfilter : (commitDB db recipe).links.filter
      (fun l => l.recipe_id == db.next_recipe_id)
      = mkLinks db.next_recipe_id db.next_link_id recipe.ingredients := by
    show (db.links ++ _).filter _ = _
    rw [List.filter_append]
    have h1 : db.links.filter (fun l => l.recipe_id == db.next_recipe_id) = [] := by
      rw [List.filter_eq_nil_iff]
      intro l hl
      simp [hlink l hl]
    rw [h1, List.nil_append]
    apply List.filter_eq_self.mpr
    intro l hl
    simp [mkLinks_recipe_id db.next_recipe_id db.next_link_id recipe.ingredients l hl]
  have hrebuild := mkLinks_filterMap_rebuild db db.next_recipe_id hids
    recipe.ingredients db.next_link_id hmem
  unfold get_recipe
  split
  · next heq =>
    rw [hfind] at heq
    simp at heq
  · next r heq =>
    rw [hfind] at heq
    have hr : r = ({ id := db.next_recipe_id, name := recipe.name, instructions := recipe.instructions } : RecipeRow) := (Option.some.inj heq).symm
    subst hr
    show Except.ok _ = Except.ok _
    rw [hfilter, List.Sorted.insertionSort_eq
      (mkLinks_sorted db.next_recipe_id db.next_link_id recipe.ingredients),
      show (commitDB db recipe).ingredients = db.ingredients from rfl, hrebuild]

def c3wDb : DB :=
  { ingredients := [{ id := 1, name := "flour" }, { id := 2, name := "milk" }],
    recipes := [], links := [],
    next_ingredient_id := 3, next_recipe_id := 1, next_link_id := 1 }

def c3wRecipe : Recipe :=
  { id := 0, name := "Pancakes", instructions := some "Mix",
    ingredients :=
      [{ ingredient_id := 1, ingredient_name := "flour",
         quantity_unit := "2 cups", notes := some "sifted" },
       { ingredient_id := 2, ingredient_name := "milk",
         quantity_unit := "1 cup", notes := none }] }

/-- Witness for c3_create_get_roundtrip at a concrete two-ingredient
recipe. -/
theorem c3_create_get_roundtrip_witness :
    create_recipe c3wDb c3wRecipe = (Except.ok 1, commitDB c3wDb c3wRecipe) ∧
    (get_recipe (commitDB c3wDb c3wRecipe) 1).1
      = Except.ok
          { id := 1, name := "Pancakes", instructions := some "Mix",
            ingredients := c3wRecipe.ingredients } :=
  c3_create_get_roundtrip c3wDb c3wRecipe (by decide) (by decide)
    (by decide) (by decide)
